import Mathlib

/-!
Shallow embedding of `src/solver.cu` from torchSODE: a batched explicit
ODE-integration engine with two stepping rules (Euler, RK4) and three
structural kernel variants dispatched on the leading dimension of the
coupling matrix `F`.

Scalars are modelled as rationals (`ℚ`): the properties under verification
concern the exact algebraic update formulas and the indexing/dispatch
structure of the kernels, not floating-point rounding.

Tensors are modelled as lists: `F : List (List ℚ)` (2-D accessor),
`x0 g : List ℚ` (1-D accessors).  An out-of-bounds accessor read — undefined
behaviour on the device — is modelled by `Option`: a lane performing such a
read produces `none`, and then so does the whole launch.  The
`std::map::operator[]` lookup in `solve_cuda` yields an empty
`std::function` for an unregistered name; the kernels receive that slot as
an `Option method_t`, and *invoking* the empty slot (which happens once per
loop iteration) is undefined behaviour, modelled by `none`.  With zero loop
iterations the empty slot is never invoked, exactly as in the source.
-/

/-- `method_t` (solver.cu line 16): a stepping rule mapping
`(F_in, x0_in, g_in, dt)` to a state increment. -/
abbrev method_t : Type := ℚ → ℚ → ℚ → ℚ → ℚ

/-- `euler_method` (solver.cu lines 20-24): `return (F_in * g_in) * dt;`. -/
def euler_method : method_t := fun F_in _x0_in g_in dt => (F_in * g_in) * dt

/-- `rk4_method` (solver.cu lines 26-41). -/
def rk4_method : method_t := fun F_in _x0_in g_in dt =>
  let f1 := (F_in * g_in) * dt
  let c2 := dt * f1 / 2
  let f2 := (F_in * (g_in + c2)) * (dt / 2)
  let c3 := dt * f2 / 2
  let f3 := (F_in * (g_in + c3)) * (dt / 2)
  let c4 := dt * f3
  let f4 := (F_in * (g_in + c4)) * dt
  (f1 + 2 * f2 + 2 * f3 + f4) / 6

/-- One lane's integration loop (solver.cu lines 53-55, identically 70-72):
`for(int i = 0; i < steps; i++) x0_in = x0_in + method(F_in, x0_in, g_in, dt);`
run for `n` iterations with the `d_chosen_method` slot `m`; each iteration
invokes the slot, and invoking an empty slot is undefined behaviour
(`none`). -/
def laneIterM (m : Option method_t) (F_in g_in dt : ℚ) : ℚ → ℕ → Option ℚ
  | x, 0 => some x
  | x, n + 1 => do
      let f ← m
      laneIterM m F_in g_in dt (x + f F_in x g_in dt) n

/-- The same per-lane loop once the method slot holds an actual rule `f`. -/
def laneIter (f : method_t) (F_in g_in dt : ℚ) : ℚ → ℕ → ℚ
  | x, 0 => x
  | x, n + 1 => laneIter f F_in g_in dt (x + f F_in x g_in dt) n

/-- A one-dimensional kernel launch: run the per-thread computation for each
thread id in the list and collect the per-thread results; a thread hitting
undefined behaviour makes the whole launch undefined. -/
def runThreads {α : Type} (f : ℕ → Option α) : List ℕ → Option (List α)
  | [] => some []
  | t :: ts => do
      let v ← f t
      let vs ← runThreads f ts
      pure (v :: vs)

/-- Body of one `general_solver` thread (solver.cu lines 46-58) for
`tid < x0_size`: read `x0_a[tid]`, `g_a[tid]`, `F_a[tid][tid]`, run the
loop, and produce the value written back to `x0_a[tid]`. -/
def general_lane (m : Option method_t) (F : List (List ℚ)) (x0 g : List ℚ)
    (dt : ℚ) (steps : ℤ) (tid : ℕ) : Option ℚ := do
  let x0_in ← x0[tid]?
  let g_in ← g[tid]?
  let row ← F[tid]?
  let F_in ← row[tid]?
  laneIterM m F_in g_in dt x0_in steps.toNat

/-- `general_solver` kernel (solver.cu lines 44-59): one thread per
`tid ∈ [0, x0_size)`; thread `tid` overwrites exactly slot `tid` of `x0`,
so the post-launch `x0` is the list of per-thread results in tid order.
The loop guard `i < steps` runs `steps.toNat` iterations (0 when
`steps < 0`). -/
def general_solver (m : Option method_t) (F : List (List ℚ)) (x0 g : List ℚ)
    (dt : ℚ) (steps : ℤ) : Option (List ℚ) :=
  runThreads (general_lane m F x0 g dt steps) (List.range x0.length)

/-- Body of one `compact_diagonal_solver` thread (solver.cu lines 63-75):
identical to `general_lane` except the coupling value is `F_a[0][0]`. -/
def compact_diagonal_lane (m : Option method_t) (F : List (List ℚ))
    (x0 g : List ℚ) (dt : ℚ) (steps : ℤ) (tid : ℕ) : Option ℚ := do
  let x0_in ← x0[tid]?
  let g_in ← g[tid]?
  let row ← F[0]?
  let F_in ← row[0]?
  laneIterM m F_in g_in dt x0_in steps.toNat

/-- `compact_diagonal_solver` kernel (solver.cu lines 61-76). -/
def compact_diagonal_solver (m : Option method_t) (F : List (List ℚ))
    (x0 g : List ℚ) (dt : ℚ) (steps : ℤ) : Option (List ℚ) :=
  runThreads (compact_diagonal_lane m F x0 g dt steps) (List.range x0.length)

/-- One iteration pair update of `compact_skew_symmetric_solver`
(solver.cu lines 94-99), iterated `n` times, with the method slot:
```
x0_in_1 = x0_in_1 + method(UL_v, x0_in_1, g_in_1, dt)
                  + method(UR_v, x0_in_2, g_in_2, dt);
x0_in_2 = x0_in_1 + method(LL_v, x0_in_1, g_in_1, dt)
                  + method(LR_v, x0_in_2, g_in_2, dt);
```
where the second line sees the already-updated `x0_in_1` (both as the
additive base and as the state argument of the `LL_v` term) but the
pre-update `x0_in_2`. -/
def blockPairIterM (m : Option method_t) (UL_v UR_v LL_v LR_v g1 g2 dt : ℚ) :
    ℚ × ℚ → ℕ → Option (ℚ × ℚ)
  | p, 0 => some p
  | p, n + 1 => do
      let f ← m
      let x1 := p.1 + f UL_v p.1 g1 dt + f UR_v p.2 g2 dt
      let x2 := x1 + f LL_v x1 g1 dt + f LR_v p.2 g2 dt
      blockPairIterM m UL_v UR_v LL_v LR_v g1 g2 dt (x1, x2) n

/-- The same pair recurrence once the method slot holds an actual rule. -/
def blockPairIter (f : method_t) (UL_v UR_v LL_v LR_v g1 g2 dt : ℚ) :
    ℚ × ℚ → ℕ → ℚ × ℚ
  | p, 0 => p
  | p, n + 1 =>
      let x1 := p.1 + f UL_v p.1 g1 dt + f UR_v p.2 g2 dt
      let x2 := x1 + f LL_v x1 g1 dt + f LR_v p.2 g2 dt
      blockPairIter f UL_v UR_v LL_v LR_v g1 g2 dt (x1, x2) n

/-- Body of one `compact_skew_symmetric_solver` thread (solver.cu lines
81-102) for `tid < x0_size/2`: read `g_a`, `x0_a` at `tid` and
`tid + x0_size/2`, the four entries of the 2x2 block, run the pair loop,
and produce the pair written back to slots `tid` and `tid + x0_size/2`. -/
def compact_skew_lane (m : Option method_t) (F : List (List ℚ))
    (x0 g : List ℚ) (dt : ℚ) (steps : ℤ) (tid : ℕ) : Option (ℚ × ℚ) := do
  let half := x0.length / 2
  let g_in_1 ← g[tid]?
  let g_in_2 ← g[tid + half]?
  let x0_in_1 ← x0[tid]?
  let x0_in_2 ← x0[tid + half]?
  let row0 ← F[0]?
  let UL_v ← row0[0]?
  let UR_v ← row0[1]?
  let row1 ← F[1]?
  let LL_v ← row1[0]?
  let LR_v ← row1[1]?
  blockPairIterM m UL_v UR_v LL_v LR_v g_in_1 g_in_2 dt (x0_in_1, x0_in_2) steps.toNat

/-- `compact_skew_symmetric_solver` kernel (solver.cu lines 78-104): one
working thread per `tid ∈ [0, x0_size/2)` (integer division); thread `tid`
overwrites exactly slots `tid` and `tid + x0_size/2`.  The post-launch `x0`
is assembled positionally: slot `j < half` holds pair `j`'s first value,
slot `j ∈ [half, half+half)` holds pair `j - half`'s second value, and any
remaining slot (only `j = x0_size - 1`, when `x0_size` is odd) is never
read or written by any thread and keeps its original value. -/
def compact_skew_symmetric_solver (m : Option method_t) (F : List (List ℚ))
    (x0 g : List ℚ) (dt : ℚ) (steps : ℤ) : Option (List ℚ) := do
  let half := x0.length / 2
  let pairs ← runThreads (compact_skew_lane m F x0 g dt steps) (List.range half)
  pure ((List.range x0.length).map fun j =>
    if j < half then (pairs.getD j (0, 0)).1
    else if j < half + half then (pairs.getD (j - half) (0, 0)).2
    else x0.getD j 0)

/-- The name-keyed registry built in `solve_cuda` (solver.cu lines 113-122):
`h_methods["Euler"] = h_euler_method; h_methods["RK4"] = h_rk4_method;`.
`lookup` of any other name models `std::map::operator[]` default-inserting
an empty `std::function` (the `none` slot). -/
def methodTable : List (String × method_t) :=
  [("Euler", euler_method), ("RK4", rk4_method)]

/-- `solve_cuda` (solver.cu lines 110-156): resolve the method slot, then
switch on `F_size = torch::size(F, 0)`: `1` → compact_diagonal_solver,
`2` → compact_skew_symmetric_solver, default → general_solver.  There is no
validation of the name, the shapes, or the step count anywhere in the
function. -/
def solve_cuda (F : List (List ℚ)) (x0 g : List ℚ) (dt : ℚ) (steps : ℤ)
    (name : String) : Option (List ℚ) :=
  let d_chosen_method := methodTable.lookup name
  let F_size := F.length
  if F_size = 1 then compact_diagonal_solver d_chosen_method F x0 g dt steps
  else if F_size = 2 then compact_skew_symmetric_solver d_chosen_method F x0 g dt steps
  else general_solver d_chosen_method F x0 g dt steps

/-- The three caller-owned buffers a call to `solve_cuda` can observe:
the coupling matrix, the state vector and the forcing vector. -/
structure SolverState where
  F : List (List ℚ)
  x0 : List ℚ
  g : List ℚ
  deriving DecidableEq

/-- A call to the engine viewed as a transformer of the caller's buffers.
In every kernel the only assignments are `x0_a[tid] = ...` (lines 57, 74,
101-102); `F_a` and `g_a` are const accessors and are never assigned, so
the post-call memory differs from the pre-call memory only in `x0`. -/
def solve_call (s : SolverState) (dt : ℚ) (steps : ℤ) (name : String) :
    Option SolverState :=
  (solve_cuda s.F s.x0 s.g dt steps name).map fun r => { s with x0 := r }

/-! Helper lemmas. -/

theorem getD_of_lt {α : Type} (l : List α) (n : ℕ) (d : α)
    (h : n < l.length) : l.getD n d = l[n] := by
  rw [List.getD_eq_getElem?_getD, List.getElem?_eq_getElem h]
  rfl

theorem getElem?_eq_some_getD {α : Type} (l : List α) (n : ℕ) (d : α)
    (h : n < l.length) : l[n]? = some (l.getD n d) := by
  rw [List.getElem?_eq_getElem h, getD_of_lt l n d h]

theorem range_one : List.range 1 = [0] := rfl

theorem runThreads_eq_map {α : Type} (f : ℕ → Option α) (v : ℕ → α)
    (l : List ℕ) (h : ∀ t ∈ l, f t = some (v t)) :
    runThreads f l = some (l.map v) := by
  induction l with
  | nil => rfl
  | cons t ts ih =>
      have ht : f t = some (v t) := h t (List.mem_cons_self t ts)
      have hts : runThreads f ts = some (ts.map v) :=
        ih (fun u hu => h u (List.mem_cons_of_mem t hu))
      simp [runThreads, ht, hts]

theorem laneIterM_some (f : method_t) (F_in g_in dt : ℚ) (x : ℚ) (n : ℕ) :
    laneIterM (some f) F_in g_in dt x n =
      some (laneIter f F_in g_in dt x n) := by
  induction n generalizing x with
  | zero => rfl
  | succ n ih => simp [laneIterM, laneIter, ih]

theorem blockPairIterM_some (f : method_t) (UL_v UR_v LL_v LR_v g1 g2 dt : ℚ)
    (p : ℚ × ℚ) (n : ℕ) :
    blockPairIterM (some f) UL_v UR_v LL_v LR_v g1 g2 dt p n =
      some (blockPairIter f UL_v UR_v LL_v LR_v g1 g2 dt p n) := by
  induction n generalizing p with
  | zero => rfl
  | succ n ih => simp [blockPairIterM, blockPairIter, ih]

theorem getElem?_map_range {α : Type} (v : ℕ → α) {j n : ℕ} (h : j < n) :
    ((List.range n).map v)[j]? = some (v j) := by
  rw [List.getElem?_map, List.getElem?_range h]
  rfl

theorem getD_map_range {α : Type} (v : ℕ → α) {j n : ℕ} (h : j < n) (d : α) :
    ((List.range n).map v).getD j d = v j := by
  rw [List.getD_eq_getElem?_getD, getElem?_map_range v h]
  rfl

theorem general_lane_eq (f : method_t) (F : List (List ℚ)) (x0 g : List ℚ)
    (dt : ℚ) (steps : ℤ) (t : ℕ)
    (hx : t < x0.length) (hg : t < g.length) (hFr : t < F.length)
    (hFc : t < (F.getD t []).length) :
    general_lane (some f) F x0 g dt steps t =
      some (laneIter f ((F.getD t []).getD t 0) (g.getD t 0) dt
        (x0.getD t 0) steps.toNat) := by
  have hFc' : t < F[t].length := by
    rwa [getD_of_lt F t [] hFr] at hFc
  simp [general_lane, laneIterM_some, List.getElem?_eq_getElem hx,
    List.getElem?_eq_getElem hg, List.getElem?_eq_getElem hFr,
    List.getElem?_eq_getElem hFc']

theorem general_solver_eq (f : method_t) (F : List (List ℚ)) (x0 g : List ℚ)
    (dt : ℚ) (steps : ℤ)
    (hg : g.length = x0.length)
    (hF : ∀ j, j < x0.length → j < F.length ∧ j < (F.getD j []).length) :
    general_solver (some f) F x0 g dt steps =
      some ((List.range x0.length).map fun t =>
        laneIter f ((F.getD t []).getD t 0) (g.getD t 0) dt
          (x0.getD t 0) steps.toNat) := by
  apply runThreads_eq_map
  intro t ht
  rw [List.mem_range] at ht
  exact general_lane_eq f F x0 g dt steps t ht (by omega) (hF t ht).1 (hF t ht).2

theorem compact_diagonal_lane_eq (f : method_t) (F : List (List ℚ))
    (x0 g : List ℚ) (dt : ℚ) (steps : ℤ) (t : ℕ)
    (hx : t < x0.length) (hg : t < g.length) (hFr : 0 < F.length)
    (hFc : 0 < (F.getD 0 []).length) :
    compact_diagonal_lane (some f) F x0 g dt steps t =
      some (laneIter f ((F.getD 0 []).getD 0 0) (g.getD t 0) dt
        (x0.getD t 0) steps.toNat) := by
  have hFc' : 0 < F[0].length := by
    rwa [getD_of_lt F 0 [] hFr] at hFc
  simp [compact_diagonal_lane, laneIterM_some, List.getElem?_eq_getElem hx,
    List.getElem?_eq_getElem hg, List.getElem?_eq_getElem hFr,
    List.getElem?_eq_getElem hFc']

theorem compact_diagonal_solver_eq (f : method_t) (F : List (List ℚ))
    (x0 g : List ℚ) (dt : ℚ) (steps : ℤ)
    (hg : g.length = x0.length) (hFr : 0 < F.length)
    (hFc : 0 < (F.getD 0 []).length) :
    compact_diagonal_solver (some f) F x0 g dt steps =
      some ((List.range x0.length).map fun t =>
        laneIter f ((F.getD 0 []).getD 0 0) (g.getD t 0) dt
          (x0.getD t 0) steps.toNat) := by
  apply runThreads_eq_map
  intro t ht
  rw [List.mem_range] at ht
  exact compact_diagonal_lane_eq f F x0 g dt steps t ht (by omega) hFr hFc

/-- The pair of final values computed by block thread `t`: the pair
recurrence started from `(x0[t], x0[t + N/2])`, driven by
`(g[t], g[t + N/2])` and the four entries of the 2x2 block of `F`. -/
def blockLaneVal (f : method_t) (F : List (List ℚ)) (x0 g : List ℚ)
    (dt : ℚ) (n : ℕ) (t : ℕ) : ℚ × ℚ :=
  blockPairIter f ((F.getD 0 []).getD 0 0) ((F.getD 0 []).getD 1 0)
    ((F.getD 1 []).getD 0 0) ((F.getD 1 []).getD 1 0)
    (g.getD t 0) (g.getD (t + x0.length / 2) 0) dt
    (x0.getD t 0, x0.getD (t + x0.length / 2) 0) n

theorem compact_skew_lane_eq (f : method_t) (F : List (List ℚ))
    (x0 g : List ℚ) (dt : ℚ) (steps : ℤ) (t : ℕ)
    (ht : t < x0.length / 2) (hlen : g.length = x0.length)
    (hF1 : 1 < F.length) (hr0 : 2 ≤ (F.getD 0 []).length)
    (hr1 : 2 ≤ (F.getD 1 []).length) :
    compact_skew_lane (some f) F x0 g dt steps t =
      some (blockLaneVal f F x0 g dt steps.toNat t) := by
  have hF0 : 0 < F.length := by omega
  have hr0' : 2 ≤ F[0].length := by
    have h := hr0
    rwa [getD_of_lt F 0 [] hF0] at h
  have hr1' : 2 ≤ F[1].length := by
    have h := hr1
    rwa [getD_of_lt F 1 [] hF1] at h
  have hb00 : 0 < F[0].length := by omega
  have hb01 : 1 < F[0].length := by omega
  have hb10 : 0 < F[1].length := by omega
  have hb11 : 1 < F[1].length := by omega
  have hx1 : t < x0.length := by omega
  have hx2 : t + x0.length / 2 < x0.length := by omega
  have hg1 : t < g.length := by omega
  have hg2 : t + x0.length / 2 < g.length := by omega
  simp [compact_skew_lane, blockLaneVal, blockPairIterM_some,
    List.getElem?_eq_getElem hx1, List.getElem?_eq_getElem hx2,
    List.getElem?_eq_getElem hg1, List.getElem?_eq_getElem hg2,
    List.getElem?_eq_getElem hF0, List.getElem?_eq_getElem hF1,
    List.getElem?_eq_getElem hb00, List.getElem?_eq_getElem hb01,
    List.getElem?_eq_getElem hb10, List.getElem?_eq_getElem hb11]

theorem compact_skew_solver_spec (f : method_t) (F : List (List ℚ))
    (x0 g : List ℚ) (dt : ℚ) (steps : ℤ)
    (hlen : g.length = x0.length) (hF1 : 1 < F.length)
    (hr0 : 2 ≤ (F.getD 0 []).length) (hr1 : 2 ≤ (F.getD 1 []).length) :
    ∃ r, compact_skew_symmetric_solver (some f) F x0 g dt steps = some r ∧
      r.length = x0.length ∧
      (∀ i, i < x0.length / 2 →
        r[i]? = some (blockLaneVal f F x0 g dt steps.toNat i).1 ∧
        r[i + x0.length / 2]? = some (blockLaneVal f F x0 g dt steps.toNat i).2) ∧
      (∀ j, x0.length / 2 + x0.length / 2 ≤ j → j < x0.length →
        r[j]? = x0[j]?) := by
  have hpairs : runThreads (compact_skew_lane (some f) F x0 g dt steps)
      (List.range (x0.length / 2)) =
      some ((List.range (x0.length / 2)).map
        (blockLaneVal f F x0 g dt steps.toNat)) := by
    apply runThreads_eq_map
    intro t ht
    rw [List.mem_range] at ht
    exact compact_skew_lane_eq f F x0 g dt steps t ht hlen hF1 hr0 hr1
  refine ⟨(List.range x0.length).map (fun j =>
      if j < x0.length / 2 then
        (((List.range (x0.length / 2)).map
          (blockLaneVal f F x0 g dt steps.toNat)).getD j (0, 0)).1
      else if j < x0.length / 2 + x0.length / 2 then
        (((List.range (x0.length / 2)).map
          (blockLaneVal f F x0 g dt steps.toNat)).getD (j - x0.length / 2) (0, 0)).2
      else x0.getD j 0), ?_, ?_, ?_, ?_⟩
  · simp [compact_skew_symmetric_solver, hpairs]
  · simp
  · intro i hi
    have hiN : i < x0.length := by omega
    have hiN2 : i + x0.length / 2 < x0.length := by omega
    constructor
    · rw [getElem?_map_range _ hiN, if_pos hi,
        getD_map_range (blockLaneVal f F x0 g dt steps.toNat) hi (0, 0)]
    · rw [getElem?_map_range _ hiN2, if_neg (by omega), if_pos (by omega),
        Nat.add_sub_cancel,
        getD_map_range (blockLaneVal f F x0 g dt steps.toNat) hi (0, 0)]
  · intro j hj hjN
    rw [getElem?_map_range _ hjN, if_neg (by omega), if_neg (by omega),
      getElem?_eq_some_getD x0 j 0 hjN]

theorem solve_cuda_general (F : List (List ℚ)) (x0 g : List ℚ) (dt : ℚ)
    (steps : ℤ) (name : String) (h1 : F.length ≠ 1) (h2 : F.length ≠ 2) :
    solve_cuda F x0 g dt steps name =
      general_solver (methodTable.lookup name) F x0 g dt steps := by
  simp [solve_cuda, h1, h2]

theorem solve_cuda_diagonal (F : List (List ℚ)) (x0 g : List ℚ) (dt : ℚ)
    (steps : ℤ) (name : String) (h1 : F.length = 1) :
    solve_cuda F x0 g dt steps name =
      compact_diagonal_solver (methodTable.lookup name) F x0 g dt steps := by
  simp [solve_cuda, h1]

theorem solve_cuda_block (F : List (List ℚ)) (x0 g : List ℚ) (dt : ℚ)
    (steps : ℤ) (name : String) (h2 : F.length = 2) :
    solve_cuda F x0 g dt steps name =
      compact_skew_symmetric_solver (methodTable.lookup name) F x0 g dt steps := by
  simp [solve_cuda, h2]

/-! Claim theorems. -/

/-- Claim C1 (General case): for every `F` whose leading dimension is
neither 1 nor 2, state and forcing vectors of equal length `N`, every `dt`,
every `steps ≥ 0` and every resolved rule, `solve_cuda` updates each lane
`i ∈ [0, N)` independently: the value written to `x0[i]` is obtained by
starting from `x0[i]` and applying
`x = x + rule(F[i][i], x, g[i], dt)` exactly `steps` times — an expression
that reads no entry of `F` other than `F[i][i]` and no other lane's `x0`
or `g` entry. -/
theorem general_case_per_lane (F : List (List ℚ)) (x0 g : List ℚ) (dt : ℚ)
    (steps : ℤ) (name : String) (method : method_t)
    (hname : methodTable.lookup name = some method)
    (h1 : F.length ≠ 1) (h2 : F.length ≠ 2)
    (hlen : g.length = x0.length) (hsteps : 0 ≤ steps)
    (hF : ∀ j, j < x0.length → j < F.length ∧ j < (F.getD j []).length) :
    ∃ r, solve_cuda F x0 g dt steps name = some r ∧ r.length = x0.length ∧
      ∀ i, i < x0.length →
        r[i]? = some (laneIter method ((F.getD i []).getD i 0) (g.getD i 0)
          dt (x0.getD i 0) steps.toNat) := by
  refine ⟨(List.range x0.length).map (fun t =>
    laneIter method ((F.getD t []).getD t 0) (g.getD t 0) dt
      (x0.getD t 0) steps.toNat), ?_, ?_, ?_⟩
  · rw [solve_cuda_general F x0 g dt steps name h1 h2, hname,
      general_solver_eq method F x0 g dt steps hlen hF]
  · simp
  · intro i hi
    exact getElem?_map_range _ hi

/-- Claim C1 witness: the theorem applied at `F` a 3x3 diagonal matrix,
`x0 = [1,2,3]`, `g = [1,1,1]`, `dt = 1`, `steps = 2`, Euler. -/
theorem general_case_per_lane_witness :
    ∃ r, solve_cuda [[(5:ℚ),0,0],[0,6,0],[0,0,7]] [1,2,3] [1,1,1] 1 2 "Euler"
        = some r ∧
      r.length = ([1,2,3] : List ℚ).length ∧
      ∀ i, i < ([1,2,3] : List ℚ).length →
        r[i]? = some (laneIter euler_method
          ((([[(5:ℚ),0,0],[0,6,0],[0,0,7]] : List (List ℚ)).getD i []).getD i 0)
          (([1,1,1] : List ℚ).getD i 0) 1 (([1,2,3] : List ℚ).getD i 0)
          (2:ℤ).toNat) :=
  general_case_per_lane [[(5:ℚ),0,0],[0,6,0],[0,0,7]] [1,2,3] [1,1,1] 1 2
    "Euler" euler_method rfl (by decide) (by decide) rfl (by decide)
    (by decide)

/-- Claim C4 (Compact-Diagonal case): for every `F` with leading dimension
1, `solve_cuda` applies to every lane `i ∈ [0, N)` the same per-lane loop
as the General case except that every lane uses the shared coupling value
`F[0][0]`; lanes still use their own `x0[i]` and `g[i]`. -/
theorem compact_diagonal_per_lane (F : List (List ℚ)) (x0 g : List ℚ)
    (dt : ℚ) (steps : ℤ) (name : String) (method : method_t)
    (hname : methodTable.lookup name = some method)
    (hF1 : F.length = 1) (hlen : g.length = x0.length) (hsteps : 0 ≤ steps)
    (hFc : 0 < (F.getD 0 []).length) :
    ∃ r, solve_cuda F x0 g dt steps name = some r ∧ r.length = x0.length ∧
      ∀ i, i < x0.length →
        r[i]? = some (laneIter method ((F.getD 0 []).getD 0 0) (g.getD i 0)
          dt (x0.getD i 0) steps.toNat) := by
  refine ⟨(List.range x0.length).map (fun t =>
    laneIter method ((F.getD 0 []).getD 0 0) (g.getD t 0) dt
      (x0.getD t 0) steps.toNat), ?_, ?_, ?_⟩
  · rw [solve_cuda_diagonal F x0 g dt steps name hF1, hname,
      compact_diagonal_solver_eq method F x0 g dt steps hlen (by omega) hFc]
  · simp
  · intro i hi
    exact getElem?_map_range _ hi

/-- Claim C4 witness: the theorem applied at `F = [[5]]`, `x0 = [1,2]`,
`g = [3,4]`, `dt = 1`, `steps = 2`, RK4. -/
theorem compact_diagonal_per_lane_witness :
    ∃ r, solve_cuda [[(5:ℚ)]] [1,2] [3,4] 1 2 "RK4" = some r ∧
      r.length = ([1,2] : List ℚ).length ∧
      ∀ i, i < ([1,2] : List ℚ).length →
        r[i]? = some (laneIter rk4_method
          ((([[(5:ℚ)]] : List (List ℚ)).getD 0 []).getD 0 0)
          (([3,4] : List ℚ).getD i 0) 1 (([1,2] : List ℚ).getD i 0)
          (2:ℤ).toNat) :=
  compact_diagonal_per_lane [[(5:ℚ)]] [1,2] [3,4] 1 2 "RK4" rk4_method rfl
    rfl rfl (by decide) (by decide)

/-- Claim C2 (Compact Block case): for every `F` with leading dimension 2,
even `N` and `steps ≥ 0`, each pair `(x0[i], x0[i + N/2])`, `i ∈ [0, N/2)`,
is iterated `steps` times by the recurrence
`x1' = x1 + rule(UL, x1, g1, dt) + rule(UR, x2, g2, dt)`,
`x2' = x1' + rule(LL, x1', g1, dt) + rule(LR, x2, g2, dt)` — the second
line using the already-updated `x1'` both as the additive base and as the
state argument of the `LL` term — with `UL = F[0][0]`, `UR = F[0][1]`,
`LL = F[1][0]`, `LR = F[1][1]`, and both halves are written back to
`x0[i]` and `x0[i + N/2]`.  The final conjunct pins the one-step shape of
the recurrence. -/
theorem compact_block_pairing (F : List (List ℚ)) (x0 g : List ℚ) (dt : ℚ)
    (steps : ℤ) (name : String) (method : method_t)
    (hname : methodTable.lookup name = some method)
    (hF : F.length = 2)
    (hr0 : 2 ≤ (F.getD 0 []).length) (hr1 : 2 ≤ (F.getD 1 []).length)
    (hlen : g.length = x0.length) (heven : x0.length % 2 = 0)
    (hsteps : 0 ≤ steps) :
    (∃ r, solve_cuda F x0 g dt steps name = some r ∧ r.length = x0.length ∧
      ∀ i, i < x0.length / 2 →
        r[i]? = some (blockLaneVal method F x0 g dt steps.toNat i).1 ∧
        r[i + x0.length / 2]? =
          some (blockLaneVal method F x0 g dt steps.toNat i).2) ∧
    ∀ (UL_v UR_v LL_v LR_v g1 g2 x1 x2 : ℚ) (n : ℕ),
      blockPairIter method UL_v UR_v LL_v LR_v g1 g2 dt (x1, x2) (n + 1) =
        blockPairIter method UL_v UR_v LL_v LR_v g1 g2 dt
          (x1 + method UL_v x1 g1 dt + method UR_v x2 g2 dt,
           (x1 + method UL_v x1 g1 dt + method UR_v x2 g2 dt)
             + method LL_v (x1 + method UL_v x1 g1 dt + method UR_v x2 g2 dt)
                 g1 dt
             + method LR_v x2 g2 dt) n := by
  constructor
  · obtain ⟨r, hr, hrlen, hpairs, _⟩ :=
      compact_skew_solver_spec method F x0 g dt steps hlen (by omega) hr0 hr1
    refine ⟨r, ?_, hrlen, hpairs⟩
    rw [solve_cuda_block F x0 g dt steps name hF, hname, hr]
  · intro UL_v UR_v LL_v LR_v g1 g2 x1 x2 n
    rfl

/-- Claim C2 witness: the theorem applied at `F = [[1,2],[3,4]]`,
`x0 = [1,2]`, `g = [5,6]`, `dt = 1`, `steps = 1`, Euler. -/
theorem compact_block_pairing_witness :
    (∃ r, solve_cuda [[(1:ℚ),2],[3,4]] [1,2] [5,6] 1 1 "Euler" = some r ∧
      r.length = ([1,2] : List ℚ).length ∧
      ∀ i, i < ([1,2] : List ℚ).length / 2 →
        r[i]? = some (blockLaneVal euler_method [[(1:ℚ),2],[3,4]] [1,2] [5,6]
          1 (1:ℤ).toNat i).1 ∧
        r[i + ([1,2] : List ℚ).length / 2]? =
          some (blockLaneVal euler_method [[(1:ℚ),2],[3,4]] [1,2] [5,6]
            1 (1:ℤ).toNat i).2) ∧
    ∀ (UL_v UR_v LL_v LR_v g1 g2 x1 x2 : ℚ) (n : ℕ),
      blockPairIter euler_method UL_v UR_v LL_v LR_v g1 g2 1 (x1, x2) (n + 1) =
        blockPairIter euler_method UL_v UR_v LL_v LR_v g1 g2 1
          (x1 + euler_method UL_v x1 g1 1 + euler_method UR_v x2 g2 1,
           (x1 + euler_method UL_v x1 g1 1 + euler_method UR_v x2 g2 1)
             + euler_method LL_v
                 (x1 + euler_method UL_v x1 g1 1 + euler_method UR_v x2 g2 1)
                 g1 1
             + euler_method LR_v x2 g2 1) n :=
  compact_block_pairing [[(1:ℚ),2],[3,4]] [1,2] [5,6] 1 1 "Euler"
    euler_method rfl (by decide) (by decide) (by decide) rfl (by decide)
    (by decide)

/-- Claim C10 (implicit odd-N block behaviour): when `F` has leading
dimension 2 and `N` is odd, the engine raises no error; the block kernel
pairs lane `i` with lane `i + N/2` for `i ∈ [0, N/2)` only (integer
division), and the final element `x0[N-1]` is never read or written: it is
left exactly unchanged. -/
theorem odd_block_last_lane_untouched (F : List (List ℚ)) (x0 g : List ℚ)
    (dt : ℚ) (steps : ℤ) (name : String) (method : method_t)
    (hname : methodTable.lookup name = some method)
    (hF : F.length = 2)
    (hr0 : 2 ≤ (F.getD 0 []).length) (hr1 : 2 ≤ (F.getD 1 []).length)
    (hlen : g.length = x0.length) (hodd : x0.length % 2 = 1) :
    ∃ r, solve_cuda F x0 g dt steps name = some r ∧ r.length = x0.length ∧
      (∀ i, i < x0.length / 2 →
        r[i]? = some (blockLaneVal method F x0 g dt steps.toNat i).1 ∧
        r[i + x0.length / 2]? =
          some (blockLaneVal method F x0 g dt steps.toNat i).2) ∧
      r[x0.length - 1]? = x0[x0.length - 1]? := by
  obtain ⟨r, hr, hrlen, hpairs, hrest⟩ :=
    compact_skew_solver_spec method F x0 g dt steps hlen (by omega) hr0 hr1
  refine ⟨r, ?_, hrlen, hpairs, ?_⟩
  · rw [solve_cuda_block F x0 g dt steps name hF, hname, hr]
  · exact hrest (x0.length - 1) (by omega) (by omega)

/-- Claim C10 witness: the theorem applied at `F = [[1,2],[3,4]]`,
`x0 = [1,2,3]`, `g = [4,5,6]`, `dt = 1`, `steps = 1`, Euler (`N = 3`). -/
theorem odd_block_last_lane_untouched_witness :
    ∃ r, solve_cuda [[(1:ℚ),2],[3,4]] [1,2,3] [4,5,6] 1 1 "Euler" = some r ∧
      r.length = ([1,2,3] : List ℚ).length ∧
      (∀ i, i < ([1,2,3] : List ℚ).length / 2 →
        r[i]? = some (blockLaneVal euler_method [[(1:ℚ),2],[3,4]] [1,2,3]
          [4,5,6] 1 (1:ℤ).toNat i).1 ∧
        r[i + ([1,2,3] : List ℚ).length / 2]? =
          some (blockLaneVal euler_method [[(1:ℚ),2],[3,4]] [1,2,3]
            [4,5,6] 1 (1:ℤ).toNat i).2) ∧
      r[([1,2,3] : List ℚ).length - 1]? = ([1,2,3] : List ℚ)[([1,2,3] : List ℚ).length - 1]? :=
  odd_block_last_lane_untouched [[(1:ℚ),2],[3,4]] [1,2,3] [4,5,6] 1 1
    "Euler" euler_method rfl (by decide) (by decide) (by decide) rfl
    (by decide)

/-- Claim C3 (integration rules): the Euler rule returns exactly
`F_value * g_value * dt`; the RK4 rule returns exactly
`(f1 + 2*f2 + 2*f3 + f4) / 6` with the four stages of the documented
formula; both are pure functions of their four arguments and neither
result depends on `x_current`. -/
theorem integration_rule_formulas (Fv x y gv dt : ℚ) :
    euler_method Fv x gv dt = Fv * gv * dt ∧
    rk4_method Fv x gv dt =
      (let f1 := Fv * gv * dt
       let c2 := dt * f1 / 2
       let f2 := Fv * (gv + c2) * (dt / 2)
       let c3 := dt * f2 / 2
       let f3 := Fv * (gv + c3) * (dt / 2)
       let c4 := dt * f3
       let f4 := Fv * (gv + c4) * dt
       (f1 + 2 * f2 + 2 * f3 + f4) / 6) ∧
    euler_method Fv x gv dt = euler_method Fv y gv dt ∧
    rk4_method Fv x gv dt = rk4_method Fv y gv dt :=
  ⟨rfl, rfl, rfl, rfl⟩

/-- Claim C5 (code bug evidence): `solve_cuda` contains no method-name
validation.  `"Midpoint"` is not a registered name; the lookup yields the
empty slot and the kernel is launched anyway: with `steps = 1` each lane
invokes the empty `std::function` — undefined behaviour (`none`), not an
`UnknownMethod` error — and with `steps = 0` the empty slot is never
invoked and the call completes normally, returning `x0` unchanged, so
nothing fails before lane execution. -/
theorem unknown_method_not_rejected :
    methodTable.lookup ("Midpoint") = none ∧
    solve_cuda [[(1:ℚ)]] [2] [3] 1 1 "Midpoint" = none ∧
    solve_cuda [[(1:ℚ)]] [2] [3] 1 0 "Midpoint" = some [2] := by
  refine ⟨rfl, ?_, ?_⟩
  · simp [solve_cuda, methodTable, List.lookup, compact_diagonal_solver,
      compact_diagonal_lane, runThreads, laneIterM, List.range_succ]
  · simp [solve_cuda, methodTable, List.lookup, compact_diagonal_solver,
      compact_diagonal_lane, runThreads, laneIterM, List.range_succ]

/-- Claim C6 (code bug evidence): `solve_cuda` contains no shape
validation.  With `x0 = [2,2]` and `g = [3]` (mismatched lengths) and a
3x3 `F`, the general kernel is launched and lane 1 reads `g[1]` out of
bounds (undefined behaviour, `none`) instead of failing with
`ShapeMismatch` before launch; and with a 2-row `F` and odd `N = 3` — a
shape the claim says must be rejected — the call completes normally. -/
theorem shape_mismatch_not_rejected :
    solve_cuda [[(1:ℚ),0,0],[0,1,0],[0,0,1]] [2,2] [3] 1 1 "Euler" = none ∧
    solve_cuda [[(1:ℚ),2],[3,4]] [1,2,3] [4,5,6] 1 1 "Euler" =
      some [15, 47, 3] := by
  constructor
  · simp [solve_cuda, methodTable, general_solver, general_lane,
      runThreads, laneIterM, List.range_succ, euler_method]
  · simp [solve_cuda, methodTable, compact_skew_symmetric_solver,
      compact_skew_lane, blockPairIterM, runThreads, List.range_succ,
      euler_method]
    norm_num

/-- Claim C7 (code bug evidence): `solve_cuda` contains no step-count
validation.  With `steps = -1` the kernels are still launched; the loop
guard `i < steps` is immediately false, every lane writes its value back
unchanged, and the call returns normally — identical to the legal
`steps = 0` no-op — instead of failing with `InvalidStepCount`. -/
theorem negative_steps_not_rejected :
    solve_cuda [[(1:ℚ)]] [2] [3] 1 (-1) "Euler" = some [2] ∧
    solve_cuda [[(1:ℚ)]] [2] [3] 1 0 "Euler" = some [2] := by
  constructor
  · simp [solve_cuda, methodTable, compact_diagonal_solver,
      compact_diagonal_lane, runThreads, laneIterM, List.range_succ]
  · simp [solve_cuda, methodTable, compact_diagonal_solver,
      compact_diagonal_lane, runThreads, laneIterM, List.range_succ]

/-- Claim C8 (frame condition): a call to the engine only reads `F` and
`g` and its only side effect is the overwrite of `x0`: whenever a call on
buffers `(F, x0, g)` completes, the post-call buffers keep `F` and `g`
bit-for-bit and the new `x0` is exactly the solver's output.  In the
source the only assignments in all three kernels are `x0_a[tid] = ...`
(lines 57, 74, 101-102); `F_a` and `g_a` are const accessors. -/
theorem frame_only_x0_mutated (s s' : SolverState) (dt : ℚ) (steps : ℤ)
    (name : String) (h : solve_call s dt steps name = some s') :
    s'.F = s.F ∧ s'.g = s.g ∧
    solve_cuda s.F s.x0 s.g dt steps name = some s'.x0 := by
  rcases hmap : solve_cuda s.F s.x0 s.g dt steps name with _ | r
  · rw [solve_call, hmap] at h
    exact absurd h (by simp)
  · rw [solve_call, hmap] at h
    simp only [Option.map_some'] at h
    injection h with h
    subst h
    exact ⟨rfl, rfl, rfl⟩

/-- Claim C8 witness: the theorem applied at `F = [[1]]`, `x0 = [5]`,
`g = [3]`, `dt = 1`, `steps = 1`, Euler, whose post-call state is
`F = [[1]]`, `x0 = [8]`, `g = [3]`. -/
theorem frame_only_x0_mutated_witness :
    (⟨[[(1:ℚ)]], [8], [3]⟩ : SolverState).F =
      (⟨[[(1:ℚ)]], [5], [3]⟩ : SolverState).F ∧
    (⟨[[(1:ℚ)]], [8], [3]⟩ : SolverState).g =
      (⟨[[(1:ℚ)]], [5], [3]⟩ : SolverState).g ∧
    solve_cuda (⟨[[(1:ℚ)]], [5], [3]⟩ : SolverState).F
        (⟨[[(1:ℚ)]], [5], [3]⟩ : SolverState).x0
        (⟨[[(1:ℚ)]], [5], [3]⟩ : SolverState).g 1 1 "Euler" =
      some (⟨[[(1:ℚ)]], [8], [3]⟩ : SolverState).x0 :=
  frame_only_x0_mutated ⟨[[(1:ℚ)]], [5], [3]⟩ ⟨[[(1:ℚ)]], [8], [3]⟩ 1 1
    "Euler" (by
      simp [solve_call, solve_cuda, methodTable, compact_diagonal_solver,
        compact_diagonal_lane, runThreads, laneIterM, List.range_succ,
        euler_method]
      norm_num)

/-- Claim C9 counterexample: at `N = 1` with every coupling entry equal to
1, `x0 = [0]`, `g = [1]`, `dt = 1`, `steps = 1`, Euler, the General (3x3)
and Compact-Diagonal cases both produce `[1]`, but the degenerate Compact
Block case launches zero working threads (`1/2 = 0`) and returns `[0]`:
the three cases do not produce identical final values of `x0[0]`. -/
theorem single_lane_equivalence_cex :
    solve_cuda [[(1:ℚ),0,0],[0,1,0],[0,0,1]] [0] [1] 1 1 "Euler" = some [1] ∧
    solve_cuda [[(1:ℚ)]] [0] [1] 1 1 "Euler" = some [1] ∧
    solve_cuda [[(1:ℚ),1],[1,1]] [0] [1] 1 1 "Euler" = some [0] ∧
    solve_cuda [[(1:ℚ),1],[1,1]] [0] [1] 1 1 "Euler" ≠
      solve_cuda [[(1:ℚ)]] [0] [1] 1 1 "Euler" := by
  have h1 : solve_cuda [[(1:ℚ),0,0],[0,1,0],[0,0,1]] [0] [1] 1 1 "Euler"
      = some [1] := by
    simp [solve_cuda, methodTable, general_solver, general_lane, runThreads,
      laneIterM, List.range_succ, euler_method]
  have h2 : solve_cuda [[(1:ℚ)]] [0] [1] 1 1 "Euler" = some [1] := by
    simp [solve_cuda, methodTable, compact_diagonal_solver,
      compact_diagonal_lane, runThreads, laneIterM, List.range_succ,
      euler_method]
  have h3 : solve_cuda [[(1:ℚ),1],[1,1]] [0] [1] 1 1 "Euler" = some [0] := by
    simp [solve_cuda, methodTable, compact_skew_symmetric_solver,
      compact_skew_lane, blockPairIterM, runThreads, List.range_succ]
  refine ⟨h1, h2, h3, ?_⟩
  rw [h2, h3]
  intro hcontra
  injection hcontra with hcontra
  exact absurd (List.head_eq_of_cons_eq hcontra) (by norm_num)

/-- Claim C9 amended: for `N = 1`, the General and Compact-Diagonal cases
that read the same scalar coupling `c` produce identical results — the
scalar recurrence applied `steps` times — while the degenerate Compact
Block case launches zero working threads (`1/2 = 0` pairs) and returns
`x0[0]` unchanged, agreeing with the others only when the update
vanishes. -/
theorem single_lane_equivalence_amended (Fg Fb : List (List ℚ))
    (c x gv dt : ℚ) (steps : ℤ) (name : String) (method : method_t)
    (hname : methodTable.lookup name = some method)
    (h1 : Fg.length ≠ 1) (h2 : Fg.length ≠ 2) (h0 : 0 < Fg.length)
    (hc0 : 0 < (Fg.getD 0 []).length) (hc : (Fg.getD 0 []).getD 0 0 = c)
    (hFb : Fb.length = 2) :
    solve_cuda Fg [x] [gv] dt steps name =
      some [laneIter method c gv dt x steps.toNat] ∧
    solve_cuda [[c]] [x] [gv] dt steps name =
      some [laneIter method c gv dt x steps.toNat] ∧
    solve_cuda Fb [x] [gv] dt steps name = some [x] := by
  have hFbound : ∀ j, j < ([x] : List ℚ).length →
      j < Fg.length ∧ j < (Fg.getD j []).length := by
    intro j hj
    rw [List.length_singleton] at hj
    have hj0 : j = 0 := by omega
    subst hj0
    exact ⟨h0, hc0⟩
  refine ⟨?_, ?_, ?_⟩
  · rw [solve_cuda_general Fg [x] [gv] dt steps name h1 h2, hname,
      general_solver_eq method Fg [x] [gv] dt steps rfl hFbound]
    simp only [List.length_singleton, range_one, List.map_cons,
      List.map_nil]
    rw [hc]
    rfl
  · rw [solve_cuda_diagonal [[c]] [x] [gv] dt steps name rfl, hname,
      compact_diagonal_solver_eq method [[c]] [x] [gv] dt steps rfl
        (by simp) (by simp)]
    simp only [List.length_singleton, range_one, List.map_cons,
      List.map_nil]
    rfl
  · rw [solve_cuda_block Fb [x] [gv] dt steps name hFb]
    simp [compact_skew_symmetric_solver, runThreads, range_one]

/-- Claim C9 amended witness: the amended theorem applied at
`Fg = [[2,0,0],[0,2,0],[0,0,2]]`, `Fb = [[7,7],[7,7]]`, `c = 2`,
`x = 3`, `gv = 1`, `dt = 1`, `steps = 1`, Euler. -/
theorem single_lane_equivalence_amended_witness :
    solve_cuda [[(2:ℚ),0,0],[0,2,0],[0,0,2]] [3] [1] 1 1 "Euler" =
      some [laneIter euler_method 2 1 1 3 (1:ℤ).toNat] ∧
    solve_cuda [[(2:ℚ)]] [3] [1] 1 1 "Euler" =
      some [laneIter euler_method 2 1 1 3 (1:ℤ).toNat] ∧
    solve_cuda [[(7:ℚ),7],[7,7]] [3] [1] 1 1 "Euler" = some [3] :=
  single_lane_equivalence_amended [[(2:ℚ),0,0],[0,2,0],[0,0,2]]
    [[(7:ℚ),7],[7,7]] 2 3 1 1 1 "Euler" euler_method rfl (by decide)
    (by decide) (by decide) (by decide) (by norm_num) (by decide)
